import Mathlib

/-!
Verification development for the wiki-migrator note-hierarchy engine.

The Python repository is shallowly embedded below.  A `Note`'s dynamic
`metadata` dictionary carries the keys `"para_folder"`, `"parents"` and
`"output_path"`; these are modelled as typed optional fields
(`paraFolder`, `parents`, `outputPath`).  An absent `"parents"` key and an
empty list behave identically everywhere in the source (only emptiness is
ever tested), so `parents` is a plain list.  Python dictionaries are
modelled as insertion-ordered association lists (`dictSet` overwrites in
place, as Python `d[k] = v` does); `dictGet` is `dict.get`, returning
`none` for a missing key.  The checklist artifact is modelled as its list
of lines: the source writes `"\n".join(lines)` and re-reads with
`split("\n")`, a round trip for newline-free lines.
-/

namespace WikiMigrator

/-- An entry of a note's `parents` list: the dicts
`{"id": ..., "title": ..., "type": ...}` built by the transforms
(script 5 uses `type` values `"para_folder"` and `"note"`). -/
structure ParentRef where
  id : String
  title : String
  type : String
deriving Repr, DecidableEq

/-- A task inside a note (`lib/models.py`, class `Task`): only the fields
the embedded code reads. -/
structure Task where
  id : String
  content : String
deriving Repr, DecidableEq

/-- A note (`lib/models.py`, class `Note`), with the metadata keys used by
the embedded transforms lifted to typed fields. -/
structure Note where
  id : String
  title : String
  content : String
  path : String
  tags : List String
  tasks : List Task
  paraFolder : Option String := none
  parents : List ParentRef := []
  outputPath : Option String := none
deriving Repr, DecidableEq

/-- Python `d[k] = v` on an insertion-ordered dict: overwrite in place if
the key exists, else append. -/
def dictSet {β : Type} (m : List (String × β)) (k : String) (v : β) : List (String × β) :=
  match m with
  | [] => [(k, v)]
  | (k₁, v₁) :: rest => if k₁ = k then (k, v) :: rest else (k₁, v₁) :: dictSet rest k v

/-- Python `d.get(k)`: first (hence unique, by `dictSet`) binding of `k`. -/
def dictGet {β : Type} (m : List (String × β)) (k : String) : Option β :=
  match m with
  | [] => none
  | (k₁, v₁) :: rest => if k₁ = k then some v₁ else dictGet rest k

/-- `sanitize_folder_name` from `P_assign_full_paths.py` (identical copy in
`U_assign_paths_with_ordinals.py`): replace characters in `<>:"/\|?*` by
`_`, strip trailing dots and spaces, substitute `"untitled"` for an empty
result. -/
def sanitizeFolderName (name : String) : String :=
  let repl := fun c => if ("<>:\"/\\|?*".toList.contains c) then '_' else c
  let replaced := name.toList.map repl
  let stripped := (replaced.reverse.dropWhile (fun c => c == '.' || c == ' ')).reverse
  if stripped.isEmpty then "untitled" else String.mk stripped

/-- The PARA tag → folder priority table of `4_assign_para_folder.py`
(`PARA_TAGS`, iterated in insertion order). -/
def PARA_TAGS : List (String × String) :=
  [("Project", "Projects"), ("Area", "Areas"), ("ResourceTopic", "Resources")]

/-- `assign_para_folder` from `4_assign_para_folder.py`: first matching
PARA tag in priority order, else the `"Archive"` fallback. -/
def assign_para_folder (note : Note) : String :=
  match PARA_TAGS.find? (fun tf => note.tags.contains tf.1) with
  | some tf => tf.2
  | none => "Archive"

/-- The `transform` of `4_assign_para_folder.py`: store each note's PARA
folder in its metadata. -/
def assignParaFolderAll (notes : List Note) : List Note :=
  notes.map (fun n => { n with paraFolder := some (assign_para_folder n) })

/-- `build_title_index` from `5_identify_para_parents.py`: Python dict
comprehension, later notes overwriting earlier ones on a duplicate title. -/
def build_title_index (notes : List Note) : List (String × Note) :=
  notes.foldl (fun m n => dictSet m n.title n) []

/-- The tag loop of `identify_parents_with_para` (lines 83-93 of
`5_identify_para_parents.py`): for each tag matching some note's title,
append a `"note"` parent unless that title is already present. -/
def addTagParents (index : List (String × Note)) :
    List String → List ParentRef × List String → List ParentRef × List String
  | [], acc => acc
  | tag :: rest, acc =>
    addTagParents index rest
      (match dictGet index tag with
       | none => acc
       | some parentNote =>
         if parentNote.title ∈ acc.2 then acc
         else (acc.1 ++ [⟨parentNote.id, parentNote.title, "note"⟩],
               acc.2 ++ [parentNote.title]))

/-- The per-note body of `identify_parents_with_para`: the PARA folder (if
truthy) becomes the first parent, then tag-matched note parents are added;
the metadata key is only written when the computed list is non-empty. -/
def identifyNoteParents (index : List (String × Note)) (n : Note) : Note :=
  let start : List ParentRef × List String :=
    match n.paraFolder with
    | some p => if p = "" then ([], []) else ([⟨p, p, "para_folder"⟩], [p])
    | none => ([], [])
  let res := addTagParents index n.tags start
  if res.1.isEmpty then n else { n with parents := res.1 }

/-- `identify_parents_with_para` from `5_identify_para_parents.py`. -/
def identify_parents_with_para (notes : List Note) : List Note :=
  let index := build_title_index notes
  notes.map (identifyNoteParents index)

/-- `strip_archive_from_multi` from `K_strip_archive_from_multi.py`
(script id `J` in the pipeline): drop the `"Archive"` parent from every
note that has more than one parent. -/
def strip_archive_from_multi (notes : List Note) : List Note :=
  notes.map (fun n =>
    if n.parents.length ≤ 1 then n
    else if n.parents.any (fun p => p.title == "Archive") then
      { n with parents := n.parents.filter (fun p => !(p.title == "Archive")) }
    else n)

/-- `build_parent_tree` from `P_assign_full_paths.py`: note title ↦ first
parent's title (or `none`). -/
def build_parent_tree (notes : List Note) : List (String × Option String) :=
  notes.foldl
    (fun m n => dictSet m n.title (match n.parents with
      | [] => none
      | p :: _ => some p.title)) []

/-- The `para_map` of `assign_full_paths`: note title ↦ the optional
`"para_folder"` metadata value. -/
def buildParaMap (notes : List Note) : List (String × Option String) :=
  notes.foldl (fun m n => dictSet m n.title n.paraFolder) []

/-- `get_full_path` from `P_assign_full_paths.py`, written with explicit
fuel so that it is executable; `none` marks fuel exhaustion, which the
termination theorem below shows is never reached at the canonical fuel
`pathFuel`.  The walk stops as soon as it revisits a title in `visited`. -/
def getFullPathFuel (parentMap paraMap : List (String × Option String)) :
    Nat → String → List String → Option String
  | 0, _, _ => none
  | fuel + 1, noteTitle, visited =>
    if noteTitle ∈ visited then some (sanitizeFolderName noteTitle)
    else
      match (dictGet parentMap noteTitle).getD none with
      | none =>
        match (dictGet paraMap noteTitle).getD none with
        | some p => if p = "" then some "." else some (sanitizeFolderName p)
        | none => some "."
      | some parentTitle =>
        if parentTitle ∈ ["Projects", "Areas", "Resources", "Archive"] then
          some (sanitizeFolderName parentTitle)
        else
          match getFullPathFuel parentMap paraMap fuel parentTitle (noteTitle :: visited) with
          | none => none
          | some parentPath =>
            if parentPath = "." then some (sanitizeFolderName parentTitle)
            else some (parentPath ++ "/" ++ sanitizeFolderName parentTitle)

/-- The fuel bound: one more than the number of parent-map keys not yet
visited — exactly the decreasing measure of the recursion. -/
def pathFuel (parentMap : List (String × Option String)) (visited : List String) : Nat :=
  ((parentMap.map Prod.fst).filter (fun k => !(decide (k ∈ visited)))).length + 1

/-- `get_full_path` at the canonical fuel. -/
def get_full_path (parentMap paraMap : List (String × Option String))
    (noteTitle : String) (visited : List String) : Option String :=
  getFullPathFuel parentMap paraMap (pathFuel parentMap visited) noteTitle visited

/-- `assign_full_paths` from `P_assign_full_paths.py`: build the two maps
once, then assign every note `output_path`. -/
def assign_full_paths (notes : List Note) : List Note :=
  let parentMap := build_parent_tree notes
  let paraMap := buildParaMap notes
  notes.map (fun n =>
    { n with outputPath := get_full_path parentMap paraMap n.title [] })

/-! ### The iterative multi-parent resolver (`J_resolve_multi_parents.py`,
script id `I2`).  The checklist artifact is its list of lines. -/

/-- `get_multi_parent_notes`: notes with more than one parent. -/
def get_multi_parent_notes (notes : List Note) : List Note :=
  notes.filter (fun n => n.parents.length > 1)

/-- The per-note section written by `generate_resolution_file`. -/
def noteSection (n : Note) : List String :=
  ["## " ++ n.title, "", "Select ONE parent:", ""] ++
    n.parents.map (fun p => "- [ ] " ++ p.title) ++ [""]

/-- `generate_resolution_file` from `J_resolve_multi_parents.py`: the lines
written to `resolve_multi_parents.md` (header, one section per ambiguous
note, trailing instructions block). -/
def generate_resolution_file (notes : List Note) : List String :=
  let multi := get_multi_parent_notes notes
  ["# Resolve Multi-Parent Notes", "",
   "**" ++ toString multi.length ++ " notes have multiple parents.**", "",
   "For each note below, select **EXACTLY ONE** parent by checking its checkbox.",
   "All unselected parents will be removed.", "", "---", ""] ++
  multi.flatMap noteSection ++
  ["---", "", "## Instructions", "",
   "1. Check exactly ONE checkbox per note above",
   "2. Save this file",
   "3. Run: python transforms/I2_resolve_multi_parents.py <input_folder>", "",
   "Repeat until all notes are resolved!"]

/-- `str.startswith(p)`, computed on the character lists. -/
def strStarts (s p : String) : Bool :=
  p.toList.isPrefixOf s.toList

/-- Python slicing `s[n:]`, computed on the character list. -/
def strDropChars (s : String) (n : Nat) : String :=
  String.mk (s.toList.drop n)

/-- Python `str.strip()`: remove leading and trailing whitespace. -/
def strStrip (s : String) : String :=
  String.mk (((s.toList.dropWhile Char.isWhitespace).reverse.dropWhile
    Char.isWhitespace).reverse)

/-- One line of `parse_resolution_file`'s loop: `re.match(r"^## (.+)$")`
starts a new section (resetting its selection list, as the Python dict
assignment does); a `- [x] ` / `- [X] ` line appends the stripped rest to
the current section. -/
def parseLine (st : List (String × List String) × Option String) (line : String) :
    List (String × List String) × Option String :=
  if strStarts line "## " && line.toList.length > 3 then
    let t := strDropChars line 3
    (dictSet st.1 t [], some t)
  else
    match st.2 with
    | none => st
    | some cur =>
      if strStarts line "- [x] " || strStarts line "- [X] " then
        match dictGet st.1 cur with
        | some ps => (dictSet st.1 cur (ps ++ [strStrip (strDropChars line 6)]), st.2)
        | none => st
      else st

/-- `parse_resolution_file` from `J_resolve_multi_parents.py`, on the file's
lines: note title ↦ list of checked parent titles. -/
def parse_resolution_file (lines : List String) : List (String × List String) :=
  (lines.foldl parseLine ([], none)).1

/-- `categorize_selections` from `J_resolve_multi_parents.py`: a section is
complete exactly when it has one checked line; its content is never
inspected. -/
def categorize_selections (selections : List (String × List String)) :
    List (String × String) × List String :=
  match selections with
  | [] => ([], [])
  | (t, ps) :: rest =>
    let acc := categorize_selections rest
    match ps with
    | [p] => ((t, p) :: acc.1, acc.2)
    | _ => (acc.1, t :: acc.2)

/-- `get_note_by_title`: first note with the given title. -/
def get_note_by_title (notes : List Note) (title : String) : Option Note :=
  notes.find? (fun n => n.title == title)

/-- `rewrite_resolution_file` from `J_resolve_multi_parents.py`: incomplete
sections first (as `###` headers), complete ones summarized below a
divider.  Returns the lines written. -/
def rewrite_resolution_file (notes : List Note) (complete : List (String × String))
    (incomplete : List String) : List String :=
  ["# Resolve Multi-Parent Notes", "",
   "**" ++ toString incomplete.length ++ " notes still need a parent selected.**",
   "**" ++ toString complete.length ++ " notes are complete.**", "",
   "For each incomplete note below, select **EXACTLY ONE** parent.", "",
   "---", "", "## INCOMPLETE - Needs Work", ""] ++
  (incomplete.flatMap (fun t =>
    match get_note_by_title notes t with
    | none => []
    | some n =>
      ["### " ++ t, "", "Select ONE parent:", ""] ++
        n.parents.map (fun p => "- [ ] " ++ p.title) ++ [""])) ++
  ["---", "", "## COMPLETE - Already Selected", "",
   "These notes already have exactly one parent selected:", ""] ++
  complete.map (fun cs => "- **" ++ cs.1 ++ "** → " ++ cs.2) ++
  ["", "---", "", "## Instructions", "",
   "1. Check exactly ONE checkbox for each INCOMPLETE note above",
   "2. Save this file",
   "3. Run: python transforms/I2_resolve_multi_parents.py <input_folder>", "",
   "Repeat until all notes are resolved!"]

/-- `apply_selections` from `J_resolve_multi_parents.py`: for every note
with a selection, keep exactly the parents whose title equals it. -/
def apply_selections (notes : List Note) (selections : List (String × String)) :
    List Note :=
  notes.map (fun n =>
    match dictGet selections n.title with
    | none => n
    | some sel => { n with parents := n.parents.filter (fun p => p.title == sel) })

/-- One resolver run (`transform` of `J_resolve_multi_parents.py` together
with the save decision of its `main`): given the batch and the checklist
file (`none` = absent), return the resulting batch, the checklist file
after the run, and whether an output batch is saved.  `main` saves exactly
when the checklist file does not exist after `transform`. -/
def resolverRun (notes : List Note) (file : Option (List String)) :
    List Note × Option (List String) × Bool :=
  match file with
  | none =>
    if (get_multi_parent_notes notes).length = 0 then (notes, none, true)
    else (notes, some (generate_resolution_file notes), false)
  | some content =>
    let selections := parse_resolution_file content
    let ci := categorize_selections selections
    if ci.2.isEmpty then (apply_selections notes ci.1, none, true)
    else (notes, some (rewrite_resolution_file notes ci.1 ci.2), false)

/-- The human edit of C2's protocol: check the box for `title` (turn the
exact line `- [ ] title` into `- [x] title`) everywhere it occurs. -/
def checkBox (lines : List String) (title : String) : List String :=
  lines.map (fun l => if l == "- [ ] " ++ title then "- [x] " ++ title else l)

/-! ### Project reclassification (`U_assign_paths_with_ordinals.py`). -/

/-- `step2_apply_project_reorganization` from
`U_assign_paths_with_ordinals.py`: among notes tagged `Project` whose
current `output_path` is exactly `"Projects"`, move `Parked` ones to
`Projects/z_Parked` and otherwise `Done` ones to `Archive`. -/
def step2_apply_project_reorganization (notes : List Note) : List Note :=
  notes.map (fun n =>
    if "Project" ∉ n.tags then n
    else if n.outputPath.getD "" ≠ "Projects" then n
    else if "Parked" ∈ n.tags then
      { n with outputPath := some "Projects/z_Parked", paraFolder := some "Projects" }
    else if "Done" ∈ n.tags then
      { n with outputPath := some "Archive", paraFolder := some "Archive" }
    else n)

/-! ### Batch validation (`lib/validators.py`). -/

/-- The task loop of `validate_notes`: per task, report a missing id and a
missing content. -/
def taskErrors (pre nid : String) (j : Nat) : List Task → List String
  | [] => []
  | t :: rest =>
    (if t.id = "" then [pre ++ " (" ++ nid ++ "): Task[" ++ toString j ++ "] missing id"]
     else []) ++
    (if t.content = "" then
      [pre ++ " (" ++ nid ++ "): Task[" ++ toString j ++ "] missing content"] else []) ++
    taskErrors pre nid (j + 1) rest

/-- The per-note error list of `validate_notes`, together with the updated
seen-id and seen-path sets (an id or path is only recorded when present
and not yet seen). -/
def noteErrors (i : Nat) (seenIds seenPaths : List String) (n : Note) :
    List String × List String × List String :=
  let pre := "Note[" ++ toString i ++ "]"
  let idErrs :=
    if n.id = "" then [pre ++ ": Missing id"]
    else if n.id ∈ seenIds then [pre ++ ": Duplicate id '" ++ n.id ++ "'"]
    else []
  let seenIds' := if n.id = "" ∨ n.id ∈ seenIds then seenIds else seenIds ++ [n.id]
  let titleErrs :=
    if n.title = "" then [pre ++ " (" ++ n.id ++ "): Missing title"] else []
  let pathErrs :=
    if n.path = "" then [pre ++ " (" ++ n.id ++ "): Missing path"]
    else if n.path ∈ seenPaths then
      [pre ++ " (" ++ n.id ++ "): Duplicate path '" ++ n.path ++ "'"]
    else []
  let seenPaths' :=
    if n.path = "" ∨ n.path ∈ seenPaths then seenPaths else seenPaths ++ [n.path]
  (idErrs ++ titleErrs ++ pathErrs ++ taskErrors pre n.id 0 n.tasks, seenIds', seenPaths')

/-- The indexed loop of `validate_notes`. -/
def validateGo (i : Nat) (seenIds seenPaths : List String) : List Note → List String
  | [] => []
  | n :: rest =>
    let e := noteErrors i seenIds seenPaths n
    e.1 ++ validateGo (i + 1) e.2.1 e.2.2 rest

/-- `validate_notes` from `lib/validators.py`: duplicate ids, duplicate
paths, missing id/title/path, and tasks missing id or content. -/
def validate_notes (notes : List Note) : List String :=
  validateGo 0 [] [] notes

/-- `apply_selections` from `I_resolve_multi_parents.py` (the interactive
variant): a note's entry may be `none` (invalid quantity) — recorded
invalid, parents untouched; a selection matching a number of parents
other than one is likewise recorded invalid and leaves the note
unchanged.  Returns the notes and the invalid titles in note order. -/
def apply_selectionsI (notes : List Note) (selections : List (String × Option String)) :
    List Note × List String :=
  match notes with
  | [] => ([], [])
  | n :: rest =>
    let r := apply_selectionsI rest selections
    match dictGet selections n.title with
    | none => (n :: r.1, r.2)
    | some none => (n :: r.1, n.title :: r.2)
    | some (some sel) =>
      let newParents := n.parents.filter (fun p => p.title == sel)
      if newParents.length = 1 then ({ n with parents := newParents } :: r.1, r.2)
      else (n :: r.1, n.title :: r.2)

/-! ### Concrete inputs used by counterexamples and witnesses. -/

/-- C1's scenario: `"Groceries"` tagged `["Home"]`. -/
def groceries : Note :=
  { id := "g", title := "Groceries", content := "", path := "Groceries.md",
    tags := ["Home"], tasks := [] }

/-- C1's scenario: a distinct note `"Home"` categorized Area (tag `"Area"`). -/
def home : Note :=
  { id := "h", title := "Home", content := "", path := "Home.md",
    tags := ["Area"], tasks := [] }

/-- C1's two-note batch. -/
def batch1 : List Note := [groceries, home]

/-- Candidate parent `A` of the ambiguous note. -/
def pA : ParentRef := ⟨"a", "A", "note"⟩

/-- Candidate parent `B` of the ambiguous note. -/
def pB : ParentRef := ⟨"b", "B", "note"⟩

/-- Candidate parent `C`, used for three-way ambiguity. -/
def pC : ParentRef := ⟨"c", "C", "note"⟩

/-- An ambiguous note with the two candidate parents `A` and `B`. -/
def noteX : Note :=
  { id := "x", title := "X", content := "", path := "X.md",
    tags := [], tasks := [], parents := [pA, pB] }

/-- An ambiguous note with the three candidate parents `A`, `B`, `C`. -/
def noteX3 : Note :=
  { id := "x3", title := "X3", content := "", path := "X3.md",
    tags := [], tasks := [], parents := [pA, pB, pC] }

/-- A note whose tags include its own title (for C5). -/
def noteSelf : Note :=
  { id := "s", title := "Self", content := "", path := "Self.md",
    tags := ["Self"], tasks := [] }

/-- A checklist whose single section matches no parent title of `noteX`. -/
def fileC : List String := ["## X", "- [x] C"]

/-- A checklist whose single section has zero checked options. -/
def fileZ : List String := ["## X", "- [ ] A", "- [ ] B"]

/-- A 1-node (self-referencing) parent cycle. -/
def cyc1 : List (String × Option String) := [("A", some "A")]

/-- A 2-node parent cycle. -/
def cyc2 : List (String × Option String) := [("A", some "B"), ("B", some "A")]

/-- A 5-node parent cycle. -/
def cyc5 : List (String × Option String) :=
  [("A", some "B"), ("B", some "C"), ("C", some "D"), ("D", some "E"), ("E", some "A")]

/-- A project note at the Projects root tagged both `Parked` and `Done`. -/
def bothTagsProject : Note :=
  { id := "p1", title := "P1", content := "", path := "P1.md",
    tags := ["Project", "Parked", "Done"], tasks := [],
    paraFolder := some "Projects", outputPath := some "Projects" }

/-- A project note already placed under a specific note-parent. -/
def nestedProject : Note :=
  { id := "p2", title := "P2", content := "", path := "P2.md",
    tags := ["Project", "Parked", "Done"], tasks := [],
    paraFolder := some "Projects", outputPath := some "Projects/Container" }

/-- Two notes sharing a title but with distinct ids and paths, every
required field present (for C9). -/
def dupTitleA : Note :=
  { id := "d1", title := "Twin", content := "", path := "Twin1.md",
    tags := [], tasks := [⟨"t1", "do it"⟩] }

/-- The second same-titled note of C9's batch. -/
def dupTitleB : Note :=
  { id := "d2", title := "Twin", content := "", path := "Twin2.md",
    tags := [], tasks := [] }

/-! ### Helper lemmas. -/

theorem dictGet_dictSet_self {β : Type} (m : List (String × β)) (k : String) (v : β) :
    dictGet (dictSet m k v) k = some v := by
  induction m with
  | nil => simp [dictSet, dictGet]
  | cons hd tl ih =>
    by_cases h : hd.1 = k
    · simp [dictSet, dictGet, h]
    · simp [dictSet, dictGet, h, ih]

theorem dictGet_dictSet_ne {β : Type} (m : List (String × β)) (k k₂ : String) (v : β)
    (h : k₂ ≠ k) : dictGet (dictSet m k v) k₂ = dictGet m k₂ := by
  induction m with
  | nil => simp [dictSet, dictGet, Ne.symm h]
  | cons hd tl ih =>
    by_cases hk : hd.1 = k
    · subst hk
      simp [dictSet, dictGet, Ne.symm h]
    · by_cases hk₂ : hd.1 = k₂
      · simp [dictSet, dictGet, hk, hk₂, h]
      · simp [dictSet, dictGet, hk, hk₂, ih]

theorem dictGet_isSome_dictSet {β : Type} (m : List (String × β)) (k k₂ : String) (v : β)
    (h : (dictGet m k₂).isSome) : (dictGet (dictSet m k v) k₂).isSome := by
  by_cases hk : k₂ = k
  · subst hk; simp [dictGet_dictSet_self]
  · rwa [dictGet_dictSet_ne m k k₂ v hk]

theorem dictGet_some_contains {β : Type} (m : List (String × β)) (k : String) (v : β)
    (h : dictGet m k = some v) : (m.map Prod.fst).contains k = true := by
  induction m with
  | nil => simp [dictGet] at h
  | cons hd tl ih =>
    simp only [dictGet] at h
    by_cases hk : hd.1 = k
    · simp [hk]
    · simp only [hk, if_false] at h
      have h2 := ih h
      simp only [List.map_cons, List.contains_cons, h2, Bool.or_true]

theorem titleIndex_foldl_sound (notes : List Note) (acc : List (String × Note))
    (hacc : ∀ t m, dictGet acc t = some m → m.title = t) :
    ∀ t m, dictGet (notes.foldl (fun m n => dictSet m n.title n) acc) t = some m →
      m.title = t := by
  induction notes generalizing acc with
  | nil => exact hacc
  | cons n rest ih =>
    refine ih (dictSet acc n.title n) ?_
    intro t m hm
    by_cases ht : t = n.title
    · subst ht
      rw [dictGet_dictSet_self] at hm
      cases hm; rfl
    · rw [dictGet_dictSet_ne _ _ _ _ ht] at hm
      exact hacc t m hm

theorem titleIndex_sound (notes : List Note) (t : String) (m : Note)
    (h : dictGet (build_title_index notes) t = some m) : m.title = t := by
  exact titleIndex_foldl_sound notes [] (by intro t m hm; simp [dictGet] at hm) t m h

theorem titleIndex_foldl_isSome (notes : List Note) (acc : List (String × Note))
    (t : String) (h : (dictGet acc t).isSome) :
    (dictGet (notes.foldl (fun m n => dictSet m n.title n) acc) t).isSome := by
  induction notes generalizing acc with
  | nil => exact h
  | cons n rest ih =>
    exact ih (dictSet acc n.title n) (dictGet_isSome_dictSet _ _ _ _ h)

theorem titleIndex_foldl_mem (notes : List Note) (acc : List (String × Note))
    (n : Note) (h : n ∈ notes) :
    (dictGet (notes.foldl (fun m n => dictSet m n.title n) acc) n.title).isSome := by
  induction notes generalizing acc with
  | nil => cases h
  | cons hd tl ih =>
    rcases List.mem_cons.mp h with h | h
    · subst h
      simp only [List.foldl_cons]
      exact titleIndex_foldl_isSome tl _ n.title (by simp [dictGet_dictSet_self])
    · simp only [List.foldl_cons]
      exact ih (dictSet acc hd.title hd) h

theorem titleIndex_mem_isSome (notes : List Note) (n : Note) (h : n ∈ notes) :
    (dictGet (build_title_index notes) n.title).isSome :=
  titleIndex_foldl_mem notes [] n h

theorem filter_length_mono {α : Type} (l : List α) (p q : α → Bool)
    (h : ∀ x, p x = true → q x = true) : (l.filter p).length ≤ (l.filter q).length := by
  induction l with
  | nil => simp
  | cons a l ih =>
    by_cases hp : p a = true
    · simp [List.filter, hp, h a hp]; omega
    · by_cases hq : q a = true
      · simp [List.filter, hp, hq]; omega
      · simp [List.filter, hp, hq]; omega

theorem filter_notVisited_lt (keys : List String) (t : String) (v : List String)
    (hmem : t ∈ keys) (hnv : t ∉ v) :
    (keys.filter (fun k => !(decide (k ∈ t :: v)))).length <
      (keys.filter (fun k => !(decide (k ∈ v)))).length := by
  induction keys with
  | nil => cases hmem
  | cons a keys ih =>
    have hmono : ((keys.filter (fun k => !(decide (k ∈ t :: v)))).length ≤
        (keys.filter (fun k => !(decide (k ∈ v)))).length) := by
      refine filter_length_mono keys _ _ ?_
      intro x hx
      simp only [List.mem_cons, Bool.not_eq_true', decide_eq_false_iff_not, not_or] at hx
      simp [hx.2]
    by_cases ha : a = t
    · subst ha
      have h1 : (!(decide (a ∈ a :: v))) = false := by simp
      have h2 : (!(decide (a ∈ v))) = true := by simp [hnv]
      rw [List.filter_cons, List.filter_cons, h1, h2]
      simp only [Bool.false_eq_true, if_false, if_true, List.length_cons]
      omega
    · have hmem2 : t ∈ keys := by
        rcases List.mem_cons.mp hmem with h | h
        · exact absurd h.symm ha
        · exact h
      by_cases hv : a ∈ v
      · have h1 : (!(decide (a ∈ t :: v))) = false := by simp [List.mem_cons, hv]
        have h2 : (!(decide (a ∈ v))) = false := by simp [hv]
        rw [List.filter_cons, List.filter_cons, h1, h2]
        simp only [Bool.false_eq_true, if_false]
        exact ih hmem2
      · have h1 : (!(decide (a ∈ t :: v))) = true := by simp [List.mem_cons, ha, hv]
        have h2 : (!(decide (a ∈ v))) = true := by simp [hv]
        rw [List.filter_cons, List.filter_cons, h1, h2]
        simp only [if_true, List.length_cons]
        exact Nat.succ_lt_succ (ih hmem2)

theorem string_append_ne_empty (a b : String) (h : b ≠ "") : a ++ b ≠ "" := by
  intro hc
  apply h
  cases a with
  | mk da =>
    cases b with
    | mk db =>
      have : da ++ db = ([] : List Char) := congrArg String.data hc
      have hdb : db = [] := (List.append_eq_nil.mp this).2
      simp [hdb]

theorem sanitizeFolderName_ne_empty (s : String) : sanitizeFolderName s ≠ "" := by
  unfold sanitizeFolderName
  set stripped := ((s.toList.map fun c =>
    if ("<>:\"/\\|?*".toList.contains c) then '_' else c).reverse.dropWhile
      (fun c => c == '.' || c == ' ')).reverse with hs
  by_cases he : stripped.isEmpty
  · simp only [he, if_true]
    intro hc
    exact absurd (congrArg String.data hc) (by simp)
  · simp only [he, if_false]
    intro hc
    have : stripped = [] := congrArg String.data hc
    rw [this] at he
    simp at he

theorem dictGet_some_mem_keys {β : Type} (m : List (String × β)) (k : String) (v : β)
    (h : dictGet m k = some v) : k ∈ m.map Prod.fst := by
  have := dictGet_some_contains m k v h
  simpa using this

theorem getFullPathFuel_isSome (pm para : List (String × Option String)) :
    ∀ (fuel : Nat) (t : String) (v : List String),
      ((pm.map Prod.fst).filter (fun k => !(decide (k ∈ v)))).length < fuel →
      (getFullPathFuel pm para fuel t v).isSome := by
  intro fuel
  induction fuel with
  | zero => intro t v h; omega
  | succ fuel ih =>
    intro t v h
    simp only [getFullPathFuel]
    by_cases hv : t ∈ v
    · simp [hv]
    · simp only [hv, if_false]
      cases hpm : (dictGet pm t).getD none with
      | none =>
        cases (dictGet para t).getD none with
        | none => simp
        | some p =>
          by_cases hp : p = ""
          · simp [hp]
          · simp [hp]
      | some parentTitle =>
        by_cases hpara : parentTitle ∈ ["Projects", "Areas", "Resources", "Archive"]
        · simp [hpara]
        · simp only [hpara, if_false]
          have htk : t ∈ pm.map Prod.fst := by
            cases hg : dictGet pm t with
            | none => rw [hg] at hpm; simp [Option.getD] at hpm
            | some x => exact dictGet_some_mem_keys pm t x hg
          have hlt := filter_notVisited_lt (pm.map Prod.fst) t v htk hv
          have hrec := ih parentTitle (t :: v) (by omega)
          rcases Option.isSome_iff_exists.mp hrec with ⟨pp, hpp⟩
          rw [hpp]
          by_cases hdot : pp = "."
          · simp [hdot]
          · simp [hdot]

theorem getFullPathFuel_ne_empty (pm para : List (String × Option String)) :
    ∀ (fuel : Nat) (t : String) (v : List String) (s : String),
      getFullPathFuel pm para fuel t v = some s → s ≠ "" := by
  intro fuel
  induction fuel with
  | zero => intro t v s h; simp [getFullPathFuel] at h
  | succ fuel ih =>
    intro t v s h
    simp only [getFullPathFuel] at h
    by_cases hv : t ∈ v
    · simp only [hv, if_true] at h
      cases h
      exact sanitizeFolderName_ne_empty t
    · simp only [hv, if_false] at h
      cases hpm : (dictGet pm t).getD none with
      | none =>
        rw [hpm] at h
        cases hpara : (dictGet para t).getD none with
        | none => rw [hpara] at h; cases h; simp
        | some p =>
          rw [hpara] at h
          by_cases hp : p = ""
          · simp only [hp, if_true] at h; cases h; simp
          · simp only [hp, if_false] at h
            cases h
            exact sanitizeFolderName_ne_empty p
      | some parentTitle =>
        rw [hpm] at h
        by_cases hpara : parentTitle ∈ ["Projects", "Areas", "Resources", "Archive"]
        · simp only [hpara, if_true] at h
          cases h
          exact sanitizeFolderName_ne_empty parentTitle
        · simp only [hpara, if_false] at h
          cases hrec : getFullPathFuel pm para fuel parentTitle (t :: v) with
          | none => rw [hrec] at h; cases h
          | some pp =>
            rw [hrec] at h
            by_cases hdot : pp = "."
            · simp only [hdot, if_true] at h
              cases h
              exact sanitizeFolderName_ne_empty parentTitle
            · simp only [hdot, if_false] at h
              cases h
              exact string_append_ne_empty _ _ (sanitizeFolderName_ne_empty parentTitle)

theorem categorize_ne_nil_of_bad (sels : List (String × List String))
    (h : ∃ e ∈ sels, e.2.length ≠ 1) : (categorize_selections sels).2 ≠ [] := by
  induction sels with
  | nil => rcases h with ⟨e, he, _⟩; cases he
  | cons hd rest ih =>
    rcases h with ⟨e, he, hlen⟩
    rcases List.mem_cons.mp he with he | he
    · subst he
      obtain ⟨t, ps⟩ := e
      cases ps with
      | nil => simp [categorize_selections]
      | cons p ps2 =>
        cases ps2 with
        | nil => simp at hlen
        | cons q ps3 => simp [categorize_selections]
    · have hrec := ih ⟨e, he, hlen⟩
      obtain ⟨t, ps⟩ := hd
      cases ps with
      | nil => simp [categorize_selections]
      | cons p ps2 =>
        cases ps2 with
        | nil => simpa [categorize_selections] using hrec
        | cons q ps3 => simp [categorize_selections]

theorem build_parent_tree_map_pres (notes : List Note) (f : Note → Note)
    (hf : ∀ n, (f n).title = n.title ∧ (f n).parents = n.parents) :
    build_parent_tree (notes.map f) = build_parent_tree notes := by
  unfold build_parent_tree
  rw [List.foldl_map]
  suffices h : ∀ acc : List (String × Option String),
      notes.foldl (fun m n => dictSet m (f n).title (match (f n).parents with
        | [] => none
        | p :: _ => some p.title)) acc =
      notes.foldl (fun m n => dictSet m n.title (match n.parents with
        | [] => none
        | p :: _ => some p.title)) acc from h []
  induction notes with
  | nil => intro acc; rfl
  | cons n rest ih =>
    intro acc
    simp only [List.foldl_cons, (hf n).1, (hf n).2]
    exact ih _

theorem buildParaMap_map_pres (notes : List Note) (f : Note → Note)
    (hf : ∀ n, (f n).title = n.title ∧ (f n).paraFolder = n.paraFolder) :
    buildParaMap (notes.map f) = buildParaMap notes := by
  unfold buildParaMap
  rw [List.foldl_map]
  suffices h : ∀ acc : List (String × Option String),
      notes.foldl (fun m n => dictSet m (f n).title (f n).paraFolder) acc =
      notes.foldl (fun m n => dictSet m n.title n.paraFolder) acc from h []
  induction notes with
  | nil => intro acc; rfl
  | cons n rest ih =>
    intro acc
    simp only [List.foldl_cons, (hf n).1, (hf n).2]
    exact ih _

theorem categorize_complete_eq (sels : List (String × List String)) :
    (categorize_selections sels).1 =
      sels.filterMap (fun e => match e.2 with | [p] => some (e.1, p) | _ => none) := by
  induction sels with
  | nil => rfl
  | cons hd rest ih =>
    obtain ⟨t, ps⟩ := hd
    cases ps with
    | nil => simpa [categorize_selections, List.filterMap_cons] using ih
    | cons p ps2 =>
      cases ps2 with
      | nil => simpa [categorize_selections, List.filterMap_cons] using ih
      | cons q ps3 => simpa [categorize_selections, List.filterMap_cons] using ih

theorem categorize_incomplete_eq (sels : List (String × List String)) :
    (categorize_selections sels).2 =
      (sels.filter (fun e => e.2.length != 1)).map Prod.fst := by
  induction sels with
  | nil => rfl
  | cons hd rest ih =>
    obtain ⟨t, ps⟩ := hd
    cases ps with
    | nil => simpa [categorize_selections, List.filter_cons] using ih
    | cons p ps2 =>
      cases ps2 with
      | nil => simpa [categorize_selections, List.filter_cons] using ih
      | cons q ps3 => simpa [categorize_selections, List.filter_cons] using ih

theorem apply_selections_no_match (notes : List Note) (sels : List (String × String))
    (i : Nat) (n : Note) (sel : String)
    (hn : notes.get? i = some n) (hsel : dictGet sels n.title = some sel)
    (hmatch : ∀ p ∈ n.parents, p.title ≠ sel) :
    (apply_selections notes sels).get? i = some { n with parents := [] } := by
  unfold apply_selections
  rw [List.get?_map, hn]
  simp only [Option.map_some', hsel]
  have : n.parents.filter (fun p => p.title == sel) = [] := by
    rw [List.filter_eq_nil]
    intro p hp
    simp [hmatch p hp]
  rw [this]

theorem apply_selectionsI_no_match (notes : List Note) (sels : List (String × Option String))
    (i : Nat) (n : Note) (sel : String)
    (hn : notes.get? i = some n) (hsel : dictGet sels n.title = some (some sel))
    (hmatch : ∀ p ∈ n.parents, p.title ≠ sel) :
    (apply_selectionsI notes sels).1.get? i = some n ∧
      n.title ∈ (apply_selectionsI notes sels).2 := by
  induction notes generalizing i with
  | nil => simp at hn
  | cons m rest ih =>
    cases i with
    | zero =>
      simp only [List.get?_cons_zero, Option.some_inj] at hn
      subst hn
      have hfil : m.parents.filter (fun p => p.title == sel) = [] := by
        rw [List.filter_eq_nil]
        intro p hp
        simp [hmatch p hp]
      simp only [apply_selectionsI, hsel, hfil]
      simp
    | succ j =>
      simp only [List.get?_cons_succ] at hn
      have hrec := ih j hn
      cases hm : dictGet sels m.title with
      | none =>
        simp only [apply_selectionsI, hm]
        exact ⟨hrec.1, hrec.2⟩
      | some o =>
        cases o with
        | none =>
          simp only [apply_selectionsI, hm]
          exact ⟨hrec.1, List.mem_cons_of_mem _ hrec.2⟩
        | some s2 =>
          simp only [apply_selectionsI, hm]
          by_cases hlen : (m.parents.filter (fun p => p.title == s2)).length = 1
          · simp only [hlen, if_true]
            exact ⟨hrec.1, hrec.2⟩
          · simp only [hlen, if_false]
            exact ⟨hrec.1, List.mem_cons_of_mem _ hrec.2⟩

theorem addTagParents_inv (index : List (String × Note)) (tags : List String) :
    ∀ acc : List ParentRef × List String,
      (∀ x, x ∈ acc.2 → ∃ p ∈ acc.1, p.title = x) →
      ∀ x, x ∈ (addTagParents index tags acc).2 →
        ∃ p ∈ (addTagParents index tags acc).1, p.title = x := by
  induction tags with
  | nil => intro acc h x; exact h x
  | cons tag rest ih =>
    intro acc h x
    simp only [addTagParents]
    cases hm : dictGet index tag with
    | none => exact ih acc h x
    | some m =>
      by_cases hmem : m.title ∈ acc.2
      · simp only [hmem, if_true]
        exact ih acc h x
      · simp only [hmem, if_false]
        refine ih _ ?_ x
        intro y hy
        rcases List.mem_append.mp hy with hy | hy
        · rcases h y hy with ⟨p, hp1, hp2⟩
          exact ⟨p, List.mem_append_left _ hp1, hp2⟩
        · simp only [List.mem_singleton] at hy
          subst hy
          exact ⟨⟨m.id, m.title, "note"⟩, List.mem_append_right _ (by simp), rfl⟩

theorem addTagParents_ids_mono (index : List (String × Note)) (tags : List String) :
    ∀ (acc : List ParentRef × List String) (x : String),
      x ∈ acc.2 → x ∈ (addTagParents index tags acc).2 := by
  induction tags with
  | nil => intro acc x h; exact h
  | cons tag rest ih =>
    intro acc x h
    simp only [addTagParents]
    cases hm : dictGet index tag with
    | none => exact ih acc x h
    | some m =>
      by_cases hmem : m.title ∈ acc.2
      · simp only [hmem, if_true]
        exact ih acc x h
      · simp only [hmem, if_false]
        exact ih _ x (List.mem_append_left _ h)

theorem addTagParents_processed (index : List (String × Note)) (tags : List String) :
    ∀ (acc : List ParentRef × List String) (τ : String) (m : Note),
      τ ∈ tags → dictGet index τ = some m → m.title = τ →
      τ ∈ (addTagParents index tags acc).2 := by
  induction tags with
  | nil => intro acc τ m h; cases h
  | cons tag rest ih =>
    intro acc τ m hτ hget hmt
    rcases List.mem_cons.mp hτ with hτ | hτ
    · subst hτ
      simp only [addTagParents, hget]
      by_cases hmem : m.title ∈ acc.2
      · simp only [hmem, if_true]
        exact addTagParents_ids_mono index rest acc τ (hmt ▸ hmem)
      · simp only [hmem, if_false]
        exact addTagParents_ids_mono index rest _ τ
          (List.mem_append_right _ (by simp [hmt]))
    · simp only [addTagParents]
      cases hm2 : dictGet index tag with
      | none => exact ih acc τ m hτ hget hmt
      | some m2 =>
        by_cases hmem : m2.title ∈ acc.2
        · simp only [hmem, if_true]
          exact ih acc τ m hτ hget hmt
        · simp only [hmem, if_false]
          exact ih _ τ m hτ hget hmt

theorem taskErrors_nil_sound (pre nid : String) :
    ∀ (j : Nat) (ts : List Task), taskErrors pre nid j ts = [] →
      ∀ t ∈ ts, t.id ≠ "" ∧ t.content ≠ "" := by
  intro j ts
  induction ts generalizing j with
  | nil => intro _ t ht; cases ht
  | cons t rest ih =>
    intro h t2 ht2
    simp only [taskErrors, List.append_eq_nil] at h
    obtain ⟨⟨h1, h2⟩, h3⟩ := h
    have hid : t.id ≠ "" := by
      intro hc
      rw [if_pos hc] at h1
      cases h1
    have hcontent : t.content ≠ "" := by
      intro hc
      rw [if_pos hc] at h2
      cases h2
    rcases List.mem_cons.mp ht2 with ht2 | ht2
    · subst ht2; exact ⟨hid, hcontent⟩
    · exact ih (j + 1) h3 t2 ht2

theorem validateGo_sound :
    ∀ (notes : List Note) (i : Nat) (seenIds seenPaths : List String),
      validateGo i seenIds seenPaths notes = [] →
      (∀ n ∈ notes,
        n.id ≠ "" ∧ n.title ≠ "" ∧ n.path ≠ "" ∧ n.id ∉ seenIds ∧ n.path ∉ seenPaths ∧
        ∀ t ∈ n.tasks, t.id ≠ "" ∧ t.content ≠ "") ∧
      (notes.map Note.id).Nodup ∧ (notes.map Note.path).Nodup := by
  intro notes
  induction notes with
  | nil =>
    intro i a b h
    refine ⟨?_, by simp, by simp⟩
    intro n hn
    cases hn
  | cons n rest ih =>
    intro i a b h
    simp only [validateGo, noteErrors, List.append_eq_nil] at h
    obtain ⟨⟨⟨⟨h1, h2⟩, h3⟩, h4⟩, h5⟩ := h
    have hid : n.id ≠ "" := by
      intro hc
      rw [if_pos hc] at h1
      cases h1
    have hida : n.id ∉ a := by
      intro hc
      rw [if_neg hid, if_pos hc] at h1
      cases h1
    have htitle : n.title ≠ "" := by
      intro hc
      rw [if_pos hc] at h2
      cases h2
    have hpath : n.path ≠ "" := by
      intro hc
      rw [if_pos hc] at h3
      cases h3
    have hpathb : n.path ∉ b := by
      intro hc
      rw [if_neg hpath, if_pos hc] at h3
      cases h3
    have htasks := taskErrors_nil_sound _ _ 0 n.tasks h4
    have hsid : (if n.id = "" ∨ n.id ∈ a then a else a ++ [n.id]) = a ++ [n.id] := by
      rw [if_neg]
      rintro (hc | hc)
      · exact hid hc
      · exact hida hc
    have hspath : (if n.path = "" ∨ n.path ∈ b then b else b ++ [n.path]) = b ++ [n.path] := by
      rw [if_neg]
      rintro (hc | hc)
      · exact hpath hc
      · exact hpathb hc
    rw [hsid, hspath] at h5
    have hrest := ih (i + 1) (a ++ [n.id]) (b ++ [n.path]) h5
    refine ⟨?_, ?_, ?_⟩
    · intro m hm
      rcases List.mem_cons.mp hm with hm | hm
      · subst hm
        exact ⟨hid, htitle, hpath, hida, hpathb, htasks⟩
      · obtain ⟨ha, hb, hc, hd, he, hf⟩ := hrest.1 m hm
        refine ⟨ha, hb, hc, ?_, ?_, hf⟩
        · intro hc2
          exact hd (List.mem_append_left _ hc2)
        · intro hc2
          exact he (List.mem_append_left _ hc2)
    · rw [List.map_cons, List.nodup_cons]
      constructor
      · intro hc
        rcases List.mem_map.mp hc with ⟨m, hm, hmid⟩
        have := (hrest.1 m hm).2.2.2.1
        exact this (List.mem_append_right _ (by simp [hmid]))
      · exact hrest.2.1
    · rw [List.map_cons, List.nodup_cons]
      constructor
      · intro hc
        rcases List.mem_map.mp hc with ⟨m, hm, hmp⟩
        have := (hrest.1 m hm).2.2.2.2.1
        exact this (List.mem_append_right _ (by simp [hmp]))
      · exact hrest.2.2

/-! ### Claim theorems. -/

/-- C1 (counterexample): in the Groceries/Home scenario, running PARA
assignment, parent identification and path assignment alone leaves the
`"Archive"` PARA parent first in Groceries' parents and yields
`output_path = "Archive"` — not `parents = [Home]` with
`output_path = "Areas/Home"` as claimed. -/
theorem c1_groceries_counterexample :
    ((assign_full_paths (identify_parents_with_para (assignParaFolderAll batch1))).head?.map
      (fun n => (n.parents, n.outputPath))) =
      some ([⟨"Archive", "Archive", "para_folder"⟩, ⟨"h", "Home", "note"⟩], some "Archive") ∧
    ((assign_full_paths (identify_parents_with_para (assignParaFolderAll batch1))).head?.map
      (fun n => (n.parents, n.outputPath))) ≠
      some ([⟨"h", "Home", "note"⟩], some "Areas/Home") := by
  constructor
  · decide
  · decide

/-- C1 (amended): the note-parent wins only after the separate
Archive-stripping transform runs between parent identification and path
assignment; with it, Groceries ends with exactly the `"Home"` note parent
and `output_path = "Areas/Home"`. -/
theorem c1_groceries_amended :
    ((assign_full_paths (strip_archive_from_multi
        (identify_parents_with_para (assignParaFolderAll batch1)))).head?.map
      (fun n => (n.parents, n.outputPath))) =
      some ([⟨"h", "Home", "note"⟩], some "Areas/Home") := by decide

/-- C2 (code bug): one ambiguous note, checklist generated, the user checks
exactly one box in its only real section — yet on the next run the parser
also reads the `## Instructions` footer as an (empty, hence incomplete)
section, so the run rewrites the checklist instead of applying the
selection: the batch is unchanged, the file persists, and the ambiguous
count stays at 1 instead of reaching 0. -/
theorem c2_resolver_stuck_failing_input :
    (get_multi_parent_notes [noteX]).length = 1 ∧
    (categorize_selections (parse_resolution_file
        (checkBox (generate_resolution_file [noteX]) "A"))).2 = ["Instructions"] ∧
    resolverRun [noteX] (some (checkBox (generate_resolution_file [noteX]) "A")) =
      ([noteX], some (rewrite_resolution_file [noteX] [("X", "A")] ["Instructions"]), false) := by
  refine ⟨by decide, by decide, by decide⟩

/-- C3: when a note's parents are exactly `[a, b, c]` with `a` and `c`
bearing titles different from `b`'s, and the (complete) selection table
maps the note's title to `b`'s title, applying selections leaves the note
with parents exactly `[b]`. -/
theorem c3_apply_selections_exact (notes : List Note) (sels : List (String × String))
    (i : Nat) (n : Note) (a b c : ParentRef)
    (hn : notes.get? i = some n) (hp : n.parents = [a, b, c])
    (hsel : dictGet sels n.title = some b.title)
    (hab : a.title ≠ b.title) (hcb : c.title ≠ b.title) :
    (apply_selections notes sels).get? i = some { n with parents := [b] } := by
  unfold apply_selections
  rw [List.get?_map, hn]
  simp only [Option.map_some', hsel, hp]
  have hab2 : (a.title == b.title) = false := beq_eq_false_iff_ne.mpr hab
  have hcb2 : (c.title == b.title) = false := beq_eq_false_iff_ne.mpr hcb
  simp [List.filter, hab2, hcb2]

/-- C3 (witness): concrete three-parent note, selection `B`. -/
theorem c3_apply_selections_exact_witness :
    (apply_selections [noteX3] [("X3", "B")]).get? 0 = some { noteX3 with parents := [pB] } :=
  c3_apply_selections_exact [noteX3] [("X3", "B")] 0 noteX3 pA pB pC
    (by decide) (by decide) (by decide) (by decide) (by decide)

/-- C4 (counterexample): a checklist whose only section has the single
checked option `C`, which matches no parent title of the note, is treated
as complete, and the run filters the note's parents down to the empty
list and deletes the file — the note's parents are changed, and it is not
re-offered. -/
theorem c4_nonmatching_selection_counterexample :
    resolverRun [noteX] (some fileC) = ([{ noteX with parents := [] }], none, true) ∧
    noteX.parents ≠ [] := by
  refine ⟨by decide, by decide⟩

/-- C4 (amended): completeness is decided purely by the number of checked
lines (exactly one means complete), with no content-validity check; in the
iterative resolver a single checked selection matching no current parent
title is applied anyway, emptying the note's parents, while only the
interactive variant reports such a note invalid and leaves its parents
unchanged. -/
theorem c4_quantity_only_amended :
    (∀ sels : List (String × List String),
      (categorize_selections sels).1 =
        sels.filterMap (fun e => match e.2 with | [p] => some (e.1, p) | _ => none) ∧
      (categorize_selections sels).2 =
        (sels.filter (fun e => e.2.length != 1)).map Prod.fst) ∧
    (∀ (notes : List Note) (sels : List (String × String)) (i : Nat) (n : Note) (sel : String),
      notes.get? i = some n → dictGet sels n.title = some sel →
      (∀ p ∈ n.parents, p.title ≠ sel) →
      (apply_selections notes sels).get? i = some { n with parents := [] }) ∧
    (∀ (notes : List Note) (sels : List (String × Option String)) (i : Nat) (n : Note)
      (sel : String),
      notes.get? i = some n → dictGet sels n.title = some (some sel) →
      (∀ p ∈ n.parents, p.title ≠ sel) →
      (apply_selectionsI notes sels).1.get? i = some n ∧
        n.title ∈ (apply_selectionsI notes sels).2) :=
  ⟨fun sels => ⟨categorize_complete_eq sels, categorize_incomplete_eq sels⟩,
   apply_selections_no_match, apply_selectionsI_no_match⟩

/-- C4 (witness): the amended statement at a concrete single-section
table, a concrete non-matching selection with the iterative resolver, and
the same selection with the interactive variant. -/
theorem c4_quantity_only_amended_witness :
    ((categorize_selections [("X", ["C"])]).1 = [("X", "C")] ∧
      (categorize_selections [("X", ["C"])]).2 = []) ∧
    (apply_selections [noteX] [("X", "C")]).get? 0 = some { noteX with parents := [] } ∧
    ((apply_selectionsI [noteX] [("X", some "C")]).1.get? 0 = some noteX ∧
      noteX.title ∈ (apply_selectionsI [noteX] [("X", some "C")]).2) := by
  refine ⟨?_, ?_, ?_⟩
  · exact ⟨((c4_quantity_only_amended.1 [("X", ["C"])]).1).trans (by decide),
      ((c4_quantity_only_amended.1 [("X", ["C"])]).2).trans (by decide)⟩
  · exact c4_quantity_only_amended.2.1 [noteX] [("X", "C")] 0 noteX "C"
      (by decide) (by decide) (by decide)
  · exact c4_quantity_only_amended.2.2 [noteX] [("X", some "C")] 0 noteX "C"
      (by decide) (by decide) (by decide)

/-- C5 (counterexample): a note whose tags include its own title receives
itself as a parent — parent identification performs no self-reference
check, so the resulting parents list contains an entry with the note's own
id and title. -/
theorem c5_self_parent_counterexample :
    noteSelf.title ∈ noteSelf.tags ∧
    ((identify_parents_with_para [noteSelf]).head?.map
      (fun n => n.parents.any (fun p => p.id == n.id && p.title == n.title))) = some true := by
  refine ⟨by decide, by decide⟩

/-- C5 (amended): whenever a note's tags include its own title, parent
identification adds a self-referencing entry: the resulting note has a
parent bearing the note's own title (the note itself, titles being the
join key). -/
theorem c5_self_parent_amended (notes : List Note) (i : Nat) (n : Note)
    (hn : notes.get? i = some n) (htag : n.title ∈ n.tags) :
    ∃ n', (identify_parents_with_para notes).get? i = some n' ∧
      ∃ p ∈ n'.parents, p.title = n.title := by
  have hmem : n ∈ notes := List.get?_mem hn
  obtain ⟨m, hm⟩ := Option.isSome_iff_exists.mp (titleIndex_mem_isSome notes n hmem)
  have hmt : m.title = n.title := titleIndex_sound notes n.title m hm
  refine ⟨identifyNoteParents (build_title_index notes) n, ?_, ?_⟩
  · unfold identify_parents_with_para
    rw [List.get?_map, hn]
    rfl
  · have key : ∀ sv : List ParentRef × List String,
        (∀ x, x ∈ sv.2 → ∃ p ∈ sv.1, p.title = x) →
        ∃ p ∈ (addTagParents (build_title_index notes) n.tags sv).1, p.title = n.title := by
      intro sv hsv
      exact addTagParents_inv (build_title_index notes) n.tags sv hsv n.title
        (addTagParents_processed (build_title_index notes) n.tags sv n.title m htag hm hmt)
    cases hpf : n.paraFolder with
    | none =>
      obtain ⟨p, hp1, hp2⟩ := key ([], []) (by intro x hx; cases hx)
      simp only [identifyNoteParents, hpf]
      have hne : (addTagParents (build_title_index notes) n.tags ([], [])).1.isEmpty = false := by
        cases hres : (addTagParents (build_title_index notes) n.tags ([], [])).1 with
        | nil => rw [hres] at hp1; cases hp1
        | cons c l => rfl
      simp only [hne, Bool.false_eq_true, if_false]
      exact ⟨p, hp1, hp2⟩
    | some q =>
      by_cases hq : q = ""
      · obtain ⟨p, hp1, hp2⟩ := key ([], []) (by intro x hx; cases hx)
        simp only [identifyNoteParents, hpf, hq, if_true]
        have hne : (addTagParents (build_title_index notes) n.tags ([], [])).1.isEmpty = false := by
          cases hres : (addTagParents (build_title_index notes) n.tags ([], [])).1 with
          | nil => rw [hres] at hp1; cases hp1
          | cons c l => rfl
        simp only [hne, Bool.false_eq_true, if_false]
        exact ⟨p, hp1, hp2⟩
      · obtain ⟨p, hp1, hp2⟩ := key ([⟨q, q, "para_folder"⟩], [q]) (by
          intro x hx
          simp only [List.mem_singleton] at hx
          exact ⟨⟨q, q, "para_folder"⟩, by simp, hx.symm⟩)
        simp only [identifyNoteParents, hpf, hq, if_false]
        have hne : (addTagParents (build_title_index notes) n.tags
            ([⟨q, q, "para_folder"⟩], [q])).1.isEmpty = false := by
          cases hres : (addTagParents (build_title_index notes) n.tags
              ([⟨q, q, "para_folder"⟩], [q])).1 with
          | nil => rw [hres] at hp1; cases hp1
          | cons c l => rfl
        simp only [hne, Bool.false_eq_true, if_false]
        exact ⟨p, hp1, hp2⟩

/-- C5 (witness): the self-tagged note, through the full identification
pass. -/
theorem c5_self_parent_amended_witness :
    ∃ n', (identify_parents_with_para [noteSelf]).get? 0 = some n' ∧
      ∃ p ∈ n'.parents, p.title = noteSelf.title :=
  c5_self_parent_amended [noteSelf] 0 noteSelf (by decide) (by decide)

/-- C6: path resolution is cycle-safe for every parent map: the canonical
fuel always suffices (the walk terminates), a title already in the current
walk stops recursion and returns its own sanitized form, and every
resolved path is non-empty. -/
theorem c6_path_cycle_safe (pm para : List (String × Option String)) (t : String)
    (v : List String) :
    (get_full_path pm para t v).isSome = true ∧
    (t ∈ v → get_full_path pm para t v = some (sanitizeFolderName t)) ∧
    (∀ s, get_full_path pm para t v = some s → s ≠ "") := by
  refine ⟨?_, ?_, ?_⟩
  · exact getFullPathFuel_isSome pm para (pathFuel pm v) t v (by unfold pathFuel; omega)
  · intro hv
    simp [get_full_path, pathFuel, getFullPathFuel, hv]
  · intro s hs
    unfold get_full_path at hs
    exact getFullPathFuel_ne_empty pm para _ t v s hs

/-- C6 (witness): the 5-node cycle terminates, the self-cycle's revisit
stop returns the sanitized title, and the 2-node cycle's resolved path is
non-empty. -/
theorem c6_path_cycle_safe_witness :
    (get_full_path cyc5 [] "A" []).isSome = true ∧
    ("A" ∈ ["A"] ∧ get_full_path cyc1 [] "A" ["A"] = some (sanitizeFolderName "A")) ∧
    (get_full_path cyc2 [] "A" [] = some "A/A/B" ∧ "A/A/B" ≠ "") :=
  ⟨(c6_path_cycle_safe cyc5 [] "A" []).1,
   ⟨by decide, (c6_path_cycle_safe cyc1 [] "A" ["A"]).2.1 (by decide)⟩,
   ⟨by decide, (c6_path_cycle_safe cyc2 [] "A" []).2.2 "A/A/B" (by decide)⟩⟩

/-- C7: path assignment is idempotent — it reads only titles, parents and
PARA folders, none of which it writes, so a second run assigns every note
the same `output_path`. -/
theorem c7_assign_full_paths_idempotent (notes : List Note) :
    assign_full_paths (assign_full_paths notes) = assign_full_paths notes := by
  have hpm : build_parent_tree (notes.map (fun n =>
      { n with outputPath := (get_full_path (build_parent_tree notes)
          (buildParaMap notes) n.title []) })) = build_parent_tree notes :=
    build_parent_tree_map_pres notes _ (fun n => ⟨rfl, rfl⟩)
  have hpara : buildParaMap (notes.map (fun n =>
      { n with outputPath := (get_full_path (build_parent_tree notes)
          (buildParaMap notes) n.title []) })) = buildParaMap notes :=
    buildParaMap_map_pres notes _ (fun n => ⟨rfl, rfl⟩)
  simp only [assign_full_paths]
  rw [hpm, hpara]
  rw [List.map_map]
  rfl

/-- C8: project reclassification leaves every note whose current
`output_path` is not exactly the Projects root unmodified, and a Projects
root note tagged both `Parked` and `Done` is moved by the `Parked` rule
(first in priority order), not the `Done` rule. -/
theorem c8_reorg_scope_priority (notes : List Note) (i : Nat) (n : Note)
    (hn : notes.get? i = some n) :
    (n.outputPath.getD "" ≠ "Projects" →
      (step2_apply_project_reorganization notes).get? i = some n) ∧
    ("Project" ∈ n.tags → "Parked" ∈ n.tags → "Done" ∈ n.tags →
      n.outputPath.getD "" = "Projects" →
      (step2_apply_project_reorganization notes).get? i =
        some { n with outputPath := some "Projects/z_Parked",
                      paraFolder := some "Projects" }) := by
  constructor
  · intro hpath
    unfold step2_apply_project_reorganization
    rw [List.get?_map, hn]
    simp only [Option.map_some']
    by_cases hproj : "Project" ∈ n.tags
    · simp [hproj, hpath]
    · simp [hproj]
  · intro h1 h2 h3 h4
    unfold step2_apply_project_reorganization
    rw [List.get?_map, hn]
    simp only [Option.map_some']
    simp [h1, h2, h4]

/-- C8 (witness): a nested project is untouched; a Projects-root project
with both status tags goes to `Projects/z_Parked`. -/
theorem c8_reorg_scope_priority_witness :
    ((step2_apply_project_reorganization [nestedProject]).get? 0 = some nestedProject) ∧
    ((step2_apply_project_reorganization [bothTagsProject]).get? 0 =
      some { bothTagsProject with outputPath := some "Projects/z_Parked",
                                  paraFolder := some "Projects" }) :=
  ⟨(c8_reorg_scope_priority [nestedProject] 0 nestedProject (by decide)).1 (by decide),
   (c8_reorg_scope_priority [bothTagsProject] 0 bothTagsProject (by decide)).2
     (by decide) (by decide) (by decide) (by decide)⟩

/-- C9 (counterexample): two notes sharing a title but with distinct ids
and paths and every required field present validate with an empty warning
list — duplicate titles are not reported. -/
theorem c9_duplicate_title_counterexample :
    dupTitleA.title = dupTitleB.title ∧ dupTitleA.id ≠ dupTitleB.id ∧
    dupTitleA.path ≠ dupTitleB.path ∧
    validate_notes [dupTitleA, dupTitleB] = [] := by
  refine ⟨by decide, by decide, by decide, by decide⟩

/-- C9 (amended): a clean validation run guarantees every id, title, path,
task id and task content is present and that ids and paths are
duplicate-free; titles are not checked for duplicates, as the same-titled
batch validating cleanly shows. -/
theorem c9_validate_sound_amended :
    (∀ notes : List Note, validate_notes notes = [] →
      (∀ n ∈ notes, n.id ≠ "" ∧ n.title ≠ "" ∧ n.path ≠ "" ∧
        ∀ t ∈ n.tasks, t.id ≠ "" ∧ t.content ≠ "") ∧
      (notes.map Note.id).Nodup ∧ (notes.map Note.path).Nodup) ∧
    (dupTitleA.title = dupTitleB.title ∧ validate_notes [dupTitleA, dupTitleB] = []) := by
  constructor
  · intro notes h
    have hs := validateGo_sound notes 0 [] [] h
    refine ⟨?_, hs.2.1, hs.2.2⟩
    intro n hn
    obtain ⟨h1, h2, h3, _, _, h6⟩ := hs.1 n hn
    exact ⟨h1, h2, h3, h6⟩
  · exact ⟨by decide, by decide⟩

/-- C9 (witness): the soundness direction applied to the concrete
same-titled batch, which validates cleanly. -/
theorem c9_validate_sound_amended_witness :
    (([dupTitleA, dupTitleB].map Note.id).Nodup ∧
      ([dupTitleA, dupTitleB].map Note.path).Nodup) ∧
    dupTitleA.title = dupTitleB.title :=
  ⟨⟨(c9_validate_sound_amended.1 [dupTitleA, dupTitleB] (by decide)).2.1,
    (c9_validate_sound_amended.1 [dupTitleA, dupTitleB] (by decide)).2.2⟩,
   c9_validate_sound_amended.2.1⟩

/-- C10: whenever the checklist exists and some section has a number of
checked options other than one, the resolver run returns the batch exactly
as it found it, saves no output, and only rewrites the checklist file. -/
theorem c10_incomplete_run_preserves (notes : List Note) (content : List String)
    (h : ∃ e ∈ parse_resolution_file content, e.2.length ≠ 1) :
    resolverRun notes (some content) =
      (notes,
       some (rewrite_resolution_file notes
         (categorize_selections (parse_resolution_file content)).1
         (categorize_selections (parse_resolution_file content)).2),
       false) := by
  have hne := categorize_ne_nil_of_bad _ h
  simp only [resolverRun]
  have hE : (categorize_selections (parse_resolution_file content)).2.isEmpty = false := by
    cases hE2 : (categorize_selections (parse_resolution_file content)).2 with
    | nil => exact absurd hE2 hne
    | cons a l => rfl
  simp [hE]

/-- C10 (witness): a checklist whose only section has zero checked boxes. -/
theorem c10_incomplete_run_preserves_witness :
    (∃ e ∈ parse_resolution_file fileZ, e.2.length ≠ 1) ∧
    resolverRun [noteX] (some fileZ) =
      ([noteX],
       some (rewrite_resolution_file [noteX]
         (categorize_selections (parse_resolution_file fileZ)).1
         (categorize_selections (parse_resolution_file fileZ)).2),
       false) :=
  ⟨by decide, c10_incomplete_run_preserves [noteX] fileZ (by decide)⟩

end WikiMigrator
